import Mathlib

/-!
Verification of the audio-lesson tracker's progress/streak core.

The definitions below are a shallow embedding of the TypeScript source:
`src/hooks/useStreak.ts` (streak engine), `src/App.tsx` (library store,
progress controller, import/export reconciler) and the player component
(`src/components/Player.tsx` / `src/unnamed/part_008`).  Wall-clock dates
(`new Date().toISOString().split('T')[0]` and its "yesterday") are passed
in as explicit string parameters; JS numbers are modelled by `ℚ`; nullable
fields by `Option`.
-/

namespace Japanese

/-- Single pass of JS `[...new Set(l)]` with the set of already-seen
elements made explicit, so the function is structurally recursive. -/
def jsDedupAux : List String → List String → List String
  | _, [] => []
  | seen, x :: xs => if x ∈ seen then jsDedupAux seen xs else x :: jsDedupAux (x :: seen) xs

/-- JS `[...new Set(l)]`: deduplicate, keeping the first occurrence of each
element, preserving order. -/
def jsDedup (l : List String) : List String := jsDedupAux [] l

/-- JS `l.slice(-n)`: the last `n` elements of `l` (all of `l` if shorter). -/
def takeLast (n : Nat) (l : List String) : List String :=
  l.drop (l.length - n)

/-- The `StreakDifficulty` enum from `src/unnamed/part_000` (types). -/
inductive StreakDifficulty
  | easy
  | normal
  | hard
  | extreme
deriving Repr, DecidableEq

/-- The `StreakData` record from `src/unnamed/part_000` (types), as consumed
by the current `useStreak` hook. -/
@[ext]
structure StreakData where
  enabled : Bool
  lastListenDate : Option String
  currentStreak : Nat
  history : List String
  difficulty : StreakDifficulty
  completionDate : Option String
  completedToday : List String
deriving Repr, DecidableEq

/-- `STREAK_GOALS` from `src/hooks/useStreak.ts`. -/
def STREAK_GOALS : StreakDifficulty → Nat
  | .easy => 1
  | .normal => 1
  | .hard => 2
  | .extreme => 3

/-- `getTodaysCompletions` from `src/hooks/useStreak.ts`: today's completion
list, lazily treating a list recorded under another date as empty. -/
def getTodaysCompletions (todayStr : String) (data : StreakData) : List String :=
  if data.completionDate = some todayStr then data.completedToday else []

/-- `updateStreak` from `src/hooks/useStreak.ts` (lines 84-108): the shared
award-granting rule, with `todayStr`/`yesterdayStr` supplied by the clock. -/
def updateStreak (todayStr yesterdayStr : String) (data : StreakData) : StreakData :=
  if data.lastListenDate = some todayStr then data
  else
    let isConsecutive := data.lastListenDate = some yesterdayStr
    let newCurrentStreak := if isConsecutive then data.currentStreak + 1 else 1
    let newHistory := takeLast 365 (jsDedup (data.history ++ [todayStr]))
    { data with
        lastListenDate := some todayStr
        currentStreak := newCurrentStreak
        history := newHistory }

/-- `recordActivity` from `src/hooks/useStreak.ts`: easy-mode award path. -/
def recordActivity (todayStr yesterdayStr : String) (data : StreakData) : StreakData :=
  if data.difficulty = .easy then
    if data.lastListenDate = some todayStr then data
    else updateStreak todayStr yesterdayStr data
  else data

/-- `recordCompletion` from `src/hooks/useStreak.ts` (lines 123-143). -/
def recordCompletion (todayStr yesterdayStr podcastId : String)
    (data : StreakData) : StreakData :=
  if data.difficulty = .easy then data
  else
    let todaysCompletions := getTodaysCompletions todayStr data
    let newCompletedToday := jsDedup (todaysCompletions ++ [podcastId])
    let updatedData : StreakData :=
      { data with completedToday := newCompletedToday, completionDate := some todayStr }
    if STREAK_GOALS updatedData.difficulty ≤ newCompletedToday.length ∧
        updatedData.lastListenDate ≠ some todayStr then
      updateStreak todayStr yesterdayStr updatedData
    else updatedData

/-- `unrecordCompletion` from `src/hooks/useStreak.ts` (lines 145-161). -/
def unrecordCompletion (todayStr podcastId : String) (data : StreakData) : StreakData :=
  if data.difficulty = .easy then data
  else
    let todaysCompletions := getTodaysCompletions todayStr data
    let newCompletedToday := todaysCompletions.filter (· ≠ podcastId)
    { data with completedToday := newCompletedToday, completionDate := some todayStr }

/-- `isTodayComplete` from `src/hooks/useStreak.ts` (lines 163-176). -/
def isTodayComplete (todayStr : String) (data : StreakData) : Bool :=
  if data.enabled = false then false
  else if data.difficulty = .easy then decide (data.lastListenDate = some todayStr)
  else decide (STREAK_GOALS data.difficulty ≤ (getTodaysCompletions todayStr data).length)

/-- Calling `recordCompletion` once per id, left to right (the way the app
issues one call per completed lesson). -/
def recordCompletionList (todayStr yesterdayStr : String) (ids : List String)
    (data : StreakData) : StreakData :=
  ids.foldl (fun s i => recordCompletion todayStr yesterdayStr i s) data

/-! ## Basic lemmas about the JS set/list helpers -/

theorem mem_jsDedupAux {x : String} :
    ∀ (l seen : List String), x ∈ jsDedupAux seen l ↔ x ∈ l ∧ x ∉ seen := by
  intro l
  induction l with
  | nil => intro seen; simp [jsDedupAux]
  | cons y ys ih =>
    intro seen
    by_cases hy : y ∈ seen
    · rw [jsDedupAux, if_pos hy, ih]
      constructor
      · rintro ⟨h1, h2⟩
        exact ⟨List.mem_cons_of_mem y h1, h2⟩
      · rintro ⟨h1, h2⟩
        rcases List.mem_cons.mp h1 with h | h
        · exact absurd (h ▸ hy) h2
        · exact ⟨h, h2⟩
    · rw [jsDedupAux, if_neg hy]
      by_cases hxy : x = y
      · subst hxy; simp [hy]
      · simp [List.mem_cons, hxy, ih]

theorem mem_jsDedup {x : String} {l : List String} : x ∈ jsDedup l ↔ x ∈ l := by
  simp [jsDedup, mem_jsDedupAux]

theorem jsDedupAux_nodup : ∀ (l seen : List String), (jsDedupAux seen l).Nodup := by
  intro l
  induction l with
  | nil => intro seen; simp [jsDedupAux]
  | cons y ys ih =>
    intro seen
    by_cases hy : y ∈ seen
    · rw [jsDedupAux, if_pos hy]
      exact ih seen
    · rw [jsDedupAux, if_neg hy, List.nodup_cons]
      refine ⟨fun hmem => ?_, ih _⟩
      rw [mem_jsDedupAux] at hmem
      exact hmem.2 (List.mem_cons_self y seen)

theorem jsDedup_nodup (l : List String) : (jsDedup l).Nodup := jsDedupAux_nodup l []

theorem jsDedupAux_eq_self :
    ∀ (l seen : List String), l.Nodup → (∀ a ∈ l, a ∉ seen) →
      jsDedupAux seen l = l := by
  intro l
  induction l with
  | nil => intro seen _ _; rfl
  | cons y ys ih =>
    intro seen hnd hdisj
    rw [List.nodup_cons] at hnd
    rw [jsDedupAux, if_neg (hdisj y (List.mem_cons_self y ys))]
    congr 1
    apply ih (y :: seen) hnd.2
    intro a ha
    rw [List.mem_cons]
    intro h
    rcases h with h | h
    · exact hnd.1 (h ▸ ha)
    · exact hdisj a (List.mem_cons_of_mem y ha) h

theorem jsDedup_eq_self {l : List String} (h : l.Nodup) : jsDedup l = l :=
  jsDedupAux_eq_self l [] h (by simp)

theorem jsDedupAux_append_single :
    ∀ (l seen : List String) (x : String),
      jsDedupAux seen (l ++ [x]) =
        jsDedupAux seen l ++ (if x ∈ seen ∨ x ∈ l then [] else [x]) := by
  intro l
  induction l with
  | nil =>
    intro seen x
    by_cases hx : x ∈ seen
    · simp [jsDedupAux, hx]
    · simp [jsDedupAux, hx]
  | cons y ys ih =>
    intro seen x
    by_cases hy : y ∈ seen
    · rw [List.cons_append, jsDedupAux, if_pos hy, ih, jsDedupAux, if_pos hy]
      congr 1
      refine if_congr ?_ rfl rfl
      by_cases hxy : x = y
      · subst hxy; simp [hy]
      · simp [List.mem_cons, hxy]
    · rw [List.cons_append, jsDedupAux, if_neg hy, ih, jsDedupAux, if_neg hy,
        List.cons_append]
      congr 2
      refine if_congr ?_ rfl rfl
      by_cases hxy : x = y
      · subst hxy; simp
      · simp [List.mem_cons, hxy]

theorem jsDedup_append_mem {l : List String} {x : String} (hnd : l.Nodup)
    (hx : x ∈ l) : jsDedup (l ++ [x]) = l := by
  rw [jsDedup, jsDedupAux_append_single]
  rw [show jsDedupAux [] l = jsDedup l from rfl, jsDedup_eq_self hnd]
  simp [hx]

theorem jsDedup_append_not_mem {l : List String} {x : String} (hnd : l.Nodup)
    (hx : x ∉ l) : jsDedup (l ++ [x]) = l ++ [x] := by
  rw [jsDedup, jsDedupAux_append_single]
  rw [show jsDedupAux [] l = jsDedup l from rfl, jsDedup_eq_self hnd]
  simp [hx]

/-! ## Field-preservation lemmas for the streak operations -/

theorem updateStreak_preserves (t y : String) (d : StreakData) :
    (updateStreak t y d).enabled = d.enabled ∧
    (updateStreak t y d).difficulty = d.difficulty ∧
    (updateStreak t y d).completionDate = d.completionDate ∧
    (updateStreak t y d).completedToday = d.completedToday := by
  unfold updateStreak
  split <;> simp

theorem recordCompletion_fields (t y i : String) (d : StreakData)
    (h : d.difficulty ≠ .easy) :
    (recordCompletion t y i d).completedToday =
      jsDedup (getTodaysCompletions t d ++ [i]) ∧
    (recordCompletion t y i d).completionDate = some t ∧
    (recordCompletion t y i d).difficulty = d.difficulty ∧
    (recordCompletion t y i d).enabled = d.enabled := by
  simp only [recordCompletion, if_neg h]
  split
  · have hp := updateStreak_preserves t y
      { d with
          completedToday := jsDedup (getTodaysCompletions t d ++ [i])
          completionDate := some t }
    exact ⟨hp.2.2.2, hp.2.2.1, hp.2.1, hp.1⟩
  · exact ⟨rfl, rfl, rfl, rfl⟩

/-! ## C1: the daily award rule -/

/-- C1: for every streak state and every award-granting call
(`recordActivity` in easy mode, `recordCompletion` reaching the goal
otherwise): when `lastListenDate` (the spec's `lastAwardedDate`) is not yet
today, granting sets `currentStreak` to the old value plus 1 exactly when
`lastListenDate` was yesterday and to 1 (not 0) otherwise, and sets
`lastListenDate` to today; a second award attempt on a date that is already
`lastListenDate` changes neither the state (for `updateStreak` /
`recordActivity`) nor any streak field (for `recordCompletion`). -/
theorem streak_award_rule (today yesterday : String) (d : StreakData) :
    (d.lastListenDate ≠ some today →
      (updateStreak today yesterday d).currentStreak =
        (if d.lastListenDate = some yesterday then d.currentStreak + 1 else 1) ∧
      (updateStreak today yesterday d).lastListenDate = some today) ∧
    (d.lastListenDate = some today →
      updateStreak today yesterday d = d ∧
      recordActivity today yesterday d = d ∧
      ∀ i, (recordCompletion today yesterday i d).currentStreak = d.currentStreak ∧
        (recordCompletion today yesterday i d).lastListenDate = d.lastListenDate ∧
        (recordCompletion today yesterday i d).history = d.history) ∧
    (d.difficulty = .easy →
      recordActivity today yesterday d = updateStreak today yesterday d) ∧
    (∀ i, d.difficulty ≠ .easy → d.lastListenDate ≠ some today →
      STREAK_GOALS d.difficulty ≤ (jsDedup (getTodaysCompletions today d ++ [i])).length →
      (recordCompletion today yesterday i d).currentStreak =
        (if d.lastListenDate = some yesterday then d.currentStreak + 1 else 1) ∧
      (recordCompletion today yesterday i d).lastListenDate = some today) := by
  refine ⟨?_, ?_, ?_, ?_⟩
  · intro h
    simp only [updateStreak, if_neg h]
    constructor <;> trivial
  · intro h
    have hus : updateStreak today yesterday d = d := by
      simp only [updateStreak, if_pos h]
    refine ⟨hus, ?_, ?_⟩
    · by_cases hde : d.difficulty = .easy
      · simp only [recordActivity, if_pos hde, if_pos h]
      · simp only [recordActivity, if_neg hde]
    · intro i
      by_cases hde : d.difficulty = .easy
      · simp only [recordCompletion, if_pos hde]
        refine ⟨?_, ?_, ?_⟩ <;> trivial
      · simp only [recordCompletion, if_neg hde]
        rw [if_neg (by simp [h])]
        refine ⟨?_, ?_, ?_⟩ <;> trivial
  · intro hde
    by_cases h : d.lastListenDate = some today
    · simp only [recordActivity, if_pos hde, if_pos h, updateStreak]
    · simp only [recordActivity, if_pos hde, if_neg h]
  · intro i hde hlt hgoal
    simp only [recordCompletion, if_neg hde]
    rw [if_pos ⟨by simpa using hgoal, by simpa using hlt⟩]
    simp only [updateStreak]
    rw [if_neg (by simpa using hlt)]
    constructor <;> trivial

/-- Concrete instantiation of `streak_award_rule`: awarding on 2026-10-11
after an award on 2026-10-10 moves the streak from 3 to 4. -/
theorem streak_award_rule_witness :
    (updateStreak "2026-10-11" "2026-10-10"
      { enabled := true, lastListenDate := some "2026-10-10", currentStreak := 3,
        history := ["2026-10-10"], difficulty := .normal,
        completionDate := none, completedToday := [] }).currentStreak = 4 ∧
    (updateStreak "2026-10-11" "2026-10-10"
      { enabled := true, lastListenDate := some "2026-10-10", currentStreak := 3,
        history := ["2026-10-10"], difficulty := .normal,
        completionDate := none, completedToday := [] }).lastListenDate =
      some "2026-10-11" := by
  have h := (streak_award_rule "2026-10-11" "2026-10-10"
    { enabled := true, lastListenDate := some "2026-10-10", currentStreak := 3,
      history := ["2026-10-10"], difficulty := .normal,
      completionDate := none, completedToday := [] }).1 (by decide)
  refine ⟨?_, h.2⟩
  rw [h.1]
  decide

/-! ## C10: the enabled master switch gates the completion indicator -/

/-- C10: for every streak state with `enabled = false`, `isTodayComplete`
returns `false`, regardless of difficulty, `lastListenDate`,
`completionDate` or the contents of `completedToday`. -/
theorem isTodayComplete_requires_enabled (today : String) (d : StreakData)
    (h : d.enabled = false) : isTodayComplete today d = false := by
  simp [isTodayComplete, h]

/-- Concrete instantiation of `isTodayComplete_requires_enabled`: a disabled
state whose goal is otherwise met still reports `false`. -/
theorem isTodayComplete_requires_enabled_witness :
    ({ enabled := false, lastListenDate := some "2026-10-11", currentStreak := 9,
       history := ["2026-10-11"], difficulty := .extreme,
       completionDate := some "2026-10-11",
       completedToday := ["a", "b", "c"] } : StreakData).enabled = false ∧
    isTodayComplete "2026-10-11"
      { enabled := false, lastListenDate := some "2026-10-11", currentStreak := 9,
        history := ["2026-10-11"], difficulty := .extreme,
        completionDate := some "2026-10-11",
        completedToday := ["a", "b", "c"] } = false :=
  ⟨rfl, isTodayComplete_requires_enabled "2026-10-11" _ rfl⟩

/-! ## C3: unrecording never revokes an award -/

/-- C3: for every state with difficulty other than easy,
`unrecordCompletion` leaves `currentStreak`, `lastListenDate` and `history`
unchanged (an already-granted award is never revoked), while
`isTodayComplete` afterwards reflects the live completion count with the
removed id filtered out, so it is `false` whenever the removal drops the
count below the goal. -/
theorem unrecordCompletion_frame (today i : String) (d : StreakData)
    (hde : d.difficulty ≠ .easy) :
    (unrecordCompletion today i d).currentStreak = d.currentStreak ∧
    (unrecordCompletion today i d).lastListenDate = d.lastListenDate ∧
    (unrecordCompletion today i d).history = d.history ∧
    (d.enabled = true →
      isTodayComplete today (unrecordCompletion today i d) =
        decide (STREAK_GOALS d.difficulty ≤
          ((getTodaysCompletions today d).filter (· ≠ i)).length)) := by
  simp only [unrecordCompletion, if_neg hde]
  refine ⟨by trivial, by trivial, by trivial, ?_⟩
  intro hen
  simp [isTodayComplete, getTodaysCompletions, hen, hde]

/-- Concrete instantiation of `unrecordCompletion_frame`: unrecording the
only completed lesson keeps the streak at 2 but turns the completion
indicator off. -/
theorem unrecordCompletion_frame_witness :
    (unrecordCompletion "2026-10-11" "a"
      { enabled := true, lastListenDate := some "2026-10-11", currentStreak := 2,
        history := ["2026-10-10", "2026-10-11"], difficulty := .normal,
        completionDate := some "2026-10-11",
        completedToday := ["a"] }).currentStreak = 2 ∧
    isTodayComplete "2026-10-11"
      (unrecordCompletion "2026-10-11" "a"
        { enabled := true, lastListenDate := some "2026-10-11", currentStreak := 2,
          history := ["2026-10-10", "2026-10-11"], difficulty := .normal,
          completionDate := some "2026-10-11",
          completedToday := ["a"] }) = false := by
  have h := unrecordCompletion_frame "2026-10-11" "a"
    { enabled := true, lastListenDate := some "2026-10-11", currentStreak := 2,
      history := ["2026-10-10", "2026-10-11"], difficulty := .normal,
      completionDate := some "2026-10-11", completedToday := ["a"] }
    (by decide)
  refine ⟨h.1, ?_⟩
  rw [h.2.2.2 rfl]
  decide

/-! ## C2: goal thresholds -/

theorem recordCompletion_cases (t y i : String) (d : StreakData)
    (hde : d.difficulty ≠ .easy) :
    (recordCompletion t y i d).lastListenDate = some t ∨
    ((recordCompletion t y i d).lastListenDate = d.lastListenDate ∧
      ¬(STREAK_GOALS d.difficulty ≤
          (jsDedup (getTodaysCompletions t d ++ [i])).length ∧
        d.lastListenDate ≠ some t)) := by
  simp only [recordCompletion, if_neg hde]
  by_cases hcond : STREAK_GOALS d.difficulty ≤
      (jsDedup (getTodaysCompletions t d ++ [i])).length ∧
      d.lastListenDate ≠ some t
  · left
    rw [if_pos (by simpa using hcond)]
    simp only [updateStreak]
    rw [if_neg (by simpa using hcond.2)]
  · right
    rw [if_neg (by simpa using hcond)]
    exact ⟨rfl, hcond⟩

theorem recordCompletion_idem (t y i : String) (d : StreakData) :
    recordCompletion t y i (recordCompletion t y i d) =
      recordCompletion t y i d := by
  by_cases hde : d.difficulty = .easy
  · have h1 : recordCompletion t y i d = d := by simp [recordCompletion, hde]
    rw [h1, h1]
  · have hfields := recordCompletion_fields t y i d hde
    set d1 := recordCompletion t y i d with hd1
    have hde1 : d1.difficulty ≠ .easy := by rw [hfields.2.2.1]; exact hde
    have hctN : d1.completedToday.Nodup := by
      rw [hfields.1]; exact jsDedup_nodup _
    have hiMem : i ∈ d1.completedToday := by
      rw [hfields.1, mem_jsDedup]; simp
    have hgtc1 : getTodaysCompletions t d1 = d1.completedToday := by
      simp [getTodaysCompletions, hfields.2.1]
    have hdedup : jsDedup (getTodaysCompletions t d1 ++ [i]) = d1.completedToday := by
      rw [hgtc1]; exact jsDedup_append_mem hctN hiMem
    have hcond2 : ¬(STREAK_GOALS d1.difficulty ≤
        (jsDedup (getTodaysCompletions t d1 ++ [i])).length ∧
        d1.lastListenDate ≠ some t) := by
      rintro ⟨hlen, hlt⟩
      rcases recordCompletion_cases t y i d hde with hcase | hcase
      · rw [← hd1] at hcase
        exact hlt hcase
      · rw [← hd1] at hcase
        apply hcase.2
        constructor
        · have h1 : (jsDedup (getTodaysCompletions t d1 ++ [i])).length =
              (jsDedup (getTodaysCompletions t d ++ [i])).length := by
            rw [hdedup, hfields.1]
          rw [hfields.2.2.1] at hlen
          rw [h1] at hlen
          exact hlen
        · rw [hcase.1] at hlt
          exact hlt
    simp only [recordCompletion, if_neg hde1]
    rw [if_neg (by simpa using hcond2)]
    ext <;> simp [hdedup, hfields.2.1]

theorem recordCompletionList_spec (today yesterday : String) :
    ∀ (ids : List String) (d : StreakData) (acc : List String),
      d.difficulty ≠ .easy →
      getTodaysCompletions today d = acc →
      (acc ++ ids).Nodup →
      getTodaysCompletions today
          (recordCompletionList today yesterday ids d) = acc ++ ids ∧
      (recordCompletionList today yesterday ids d).enabled = d.enabled ∧
      (recordCompletionList today yesterday ids d).difficulty = d.difficulty := by
  intro ids
  induction ids with
  | nil =>
    intro d acc hde hacc hnd
    simpa [recordCompletionList] using hacc
  | cons i rest ih =>
    intro d acc hde hacc hnd
    have hfields := recordCompletion_fields today yesterday i d hde
    rcases List.nodup_append.mp hnd with ⟨haccN, _, hdisj⟩
    have hi : i ∉ acc := fun hmem => hdisj hmem (List.mem_cons_self i rest)
    have hct : (recordCompletion today yesterday i d).completedToday = acc ++ [i] := by
      rw [hfields.1, hacc]
      exact jsDedup_append_not_mem haccN hi
    have hgtc : getTodaysCompletions today (recordCompletion today yesterday i d) =
        acc ++ [i] := by
      simp [getTodaysCompletions, hfields.2.1, hct]
    have hde1 : (recordCompletion today yesterday i d).difficulty ≠ .easy := by
      rw [hfields.2.2.1]; exact hde
    have hnd' : ((acc ++ [i]) ++ rest).Nodup := by
      simpa [List.append_assoc] using hnd
    have hstep : recordCompletionList today yesterday (i :: rest) d =
        recordCompletionList today yesterday rest
          (recordCompletion today yesterday i d) := rfl
    have hrec := ih (recordCompletion today yesterday i d) (acc ++ [i]) hde1 hgtc hnd'
    refine ⟨?_, ?_, ?_⟩
    · rw [hstep, hrec.1]
      simp [List.append_assoc]
    · rw [hstep, hrec.2.1, hfields.2.2.2]
    · rw [hstep, hrec.2.2, hfields.2.2.1]

/-- C2: for every enabled state with difficulty other than easy whose
completion list does not already belong to today, calling
`recordCompletion` once per id for `n` distinct lesson ids yields
`isTodayComplete = true` exactly when `n ≥ goal(difficulty)` (easy/normal 1,
hard 2, extreme 3); re-adding an already-present id is idempotent (set
union); and completions recorded under a `completionDate` other than today
are read back as an empty set. -/
theorem recordCompletion_goal_threshold (today yesterday : String)
    (ids : List String) (d : StreakData)
    (hen : d.enabled = true) (hde : d.difficulty ≠ .easy)
    (hfresh : d.completionDate ≠ some today) (hnd : ids.Nodup) :
    (isTodayComplete today (recordCompletionList today yesterday ids d) =
      decide (STREAK_GOALS d.difficulty ≤ ids.length)) ∧
    (∀ (i : String) (d' : StreakData),
      recordCompletion today yesterday i (recordCompletion today yesterday i d') =
        recordCompletion today yesterday i d') ∧
    (∀ d' : StreakData, d'.completionDate ≠ some today →
      getTodaysCompletions today d' = []) := by
  refine ⟨?_, fun i d' => recordCompletion_idem today yesterday i d',
    fun d' h => by simp [getTodaysCompletions, h]⟩
  have hgtc0 : getTodaysCompletions today d = [] := by
    simp [getTodaysCompletions, hfresh]
  have hspec := recordCompletionList_spec today yesterday ids d [] hde hgtc0
    (by simpa using hnd)
  rw [isTodayComplete, if_neg (by simp [hspec.2.1, hen]), if_neg (by rw [hspec.2.2]; exact hde)]
  rw [hspec.1, hspec.2.2]
  simp

/-- Concrete instantiation of `recordCompletion_goal_threshold`: in hard
mode (goal 2), completing two distinct lessons on a fresh day turns
`isTodayComplete` on. -/
theorem recordCompletion_goal_threshold_witness :
    isTodayComplete "2026-10-11"
      (recordCompletionList "2026-10-11" "2026-10-10" ["a", "b"]
        { enabled := true, lastListenDate := none, currentStreak := 0,
          history := [], difficulty := .hard,
          completionDate := none, completedToday := [] }) = true := by
  have h := (recordCompletion_goal_threshold "2026-10-11" "2026-10-10" ["a", "b"]
    { enabled := true, lastListenDate := none, currentStreak := 0,
      history := [], difficulty := .hard,
      completionDate := none, completedToday := [] }
    rfl (by decide) (by decide) (by decide)).1
  rw [h]
  decide

/-! ## C5: the retained history window -/

/-- C5 (amended): when the prior history is chronologically sorted and all
its dates precede today, the history produced by an award is sorted, has
length `min 365 (n + 1)`, contains today, and every dropped date is older
than every retained date — i.e. it is the window of most recent dates by
value.  (The unamended claim fails for unsorted prior contents: see the
counterexample, where the window is taken by insertion order.) -/
theorem history_window_amended (today yesterday : String) (d : StreakData)
    (hguard : d.lastListenDate ≠ some today)
    (hsorted : d.history.Sorted (· < ·))
    (htoday : ∀ x ∈ d.history, x < today) :
    (updateStreak today yesterday d).history.Sorted (· < ·) ∧
    (updateStreak today yesterday d).history.length = min 365 (d.history.length + 1) ∧
    today ∈ (updateStreak today yesterday d).history ∧
    (∀ x ∈ d.history ++ [today], x ∉ (updateStreak today yesterday d).history →
      ∀ z ∈ (updateStreak today yesterday d).history, x < z) := by
  have hnodup : d.history.Nodup := hsorted.nodup
  have htmem : today ∉ d.history := fun h => lt_irrefl today (htoday today h)
  have hl : jsDedup (d.history ++ [today]) = d.history ++ [today] :=
    jsDedup_append_not_mem hnodup htmem
  have hhist : (updateStreak today yesterday d).history =
      (d.history ++ [today]).drop ((d.history ++ [today]).length - 365) := by
    simp only [updateStreak, if_neg hguard]
    show takeLast 365 (jsDedup (d.history ++ [today])) = _
    rw [hl]
    rfl
  set l := d.history ++ [today] with hldef
  set k := l.length - 365 with hk
  have hlsorted : l.Pairwise (· < ·) := by
    rw [hldef, List.pairwise_append]
    refine ⟨hsorted, List.pairwise_singleton _ _, fun x hx z hz => ?_⟩
    rw [List.mem_singleton] at hz
    subst hz
    exact htoday x hx
  have hksplit : l.take k ++ l.drop k = l := List.take_append_drop k l
  have hcross : ∀ x ∈ l.take k, ∀ z ∈ l.drop k, x < z := by
    have hp : (l.take k ++ l.drop k).Pairwise (· < ·) := by
      rw [hksplit]; exact hlsorted
    exact (List.pairwise_append.mp hp).2.2
  have hdsorted : (l.drop k).Pairwise (· < ·) :=
    List.Pairwise.sublist (List.drop_sublist k l) hlsorted
  have hlenl : l.length = d.history.length + 1 := by rw [hldef]; simp
  have hlen : (l.drop k).length = min 365 (d.history.length + 1) := by
    rw [List.length_drop, hk, hlenl]
    omega
  have hmem_today : today ∈ l.drop k := by
    have hpos : 0 < (l.drop k).length := by rw [hlen]; omega
    have hne : l.drop k ≠ [] := List.length_pos.mp hpos
    have htl : today ∈ l := by rw [hldef]; simp
    have htl2 : today ∈ l.take k ++ l.drop k := by rw [hksplit]; exact htl
    rcases List.mem_append.mp htl2 with hta | htd
    · exfalso
      obtain ⟨z, hz⟩ := List.exists_mem_of_ne_nil _ hne
      have h1 : today < z := hcross today hta z hz
      have hzl : z ∈ l := (List.drop_sublist k l).subset hz
      rw [hldef] at hzl
      rcases List.mem_append.mp hzl with hzh | hzt
      · exact absurd (htoday z hzh) (lt_asymm h1)
      · rw [List.mem_singleton] at hzt
        rw [hzt] at h1
        exact lt_irrefl today h1
    · exact htd
  rw [hhist]
  refine ⟨hdsorted, hlen, hmem_today, ?_⟩
  intro x hx hnotin z hz
  have hxl : x ∈ l.take k ++ l.drop k := by rw [hksplit]; exact hx
  rcases List.mem_append.mp hxl with h | h
  · exact hcross x h z hz
  · exact absurd h hnotin

/-- Concrete instantiation of `history_window_amended`: from an empty
history, an award yields the one-day window containing today. -/
theorem history_window_amended_witness :
    (updateStreak "2026-10-11" "2026-10-10"
      { enabled := true, lastListenDate := none, currentStreak := 0,
        history := [], difficulty := .normal,
        completionDate := none, completedToday := [] }).history.length = 1 ∧
    "2026-10-11" ∈ (updateStreak "2026-10-11" "2026-10-10"
      { enabled := true, lastListenDate := none, currentStreak := 0,
        history := [], difficulty := .normal,
        completionDate := none, completedToday := [] }).history := by
  have h := history_window_amended "2026-10-11" "2026-10-10"
    { enabled := true, lastListenDate := none, currentStreak := 0,
      history := [], difficulty := .normal,
      completionDate := none, completedToday := [] }
    (by decide) (by simp) (by simp)
  refine ⟨?_, h.2.2.1⟩
  rw [h.2.1]
  rfl

/-- The year encoded in the first four characters of an ISO date string. -/
def yearOf (s : String) : Nat :=
  match s.data with
  | c1 :: c2 :: c3 :: c4 :: _ =>
      (((c1.toNat - 48) * 10 + (c2.toNat - 48)) * 10 + (c3.toNat - 48)) * 10 +
        (c4.toNat - 48)
  | _ => 0

/-- A 366-date history whose first (insertion-order) entry is the most
recent date by value. -/
def cexHistory : List String := ["9999-12-31",
  "1584-01-01",
  "1585-01-01",
  "1586-01-01",
  "1587-01-01",
  "1588-01-01",
  "1589-01-01",
  "1590-01-01",
  "1591-01-01",
  "1592-01-01",
  "1593-01-01",
  "1594-01-01",
  "1595-01-01",
  "1596-01-01",
  "1597-01-01",
  "1598-01-01",
  "1599-01-01",
  "1600-01-01",
  "1601-01-01",
  "1602-01-01",
  "1603-01-01",
  "1604-01-01",
  "1605-01-01",
  "1606-01-01",
  "1607-01-01",
  "1608-01-01",
  "1609-01-01",
  "1610-01-01",
  "1611-01-01",
  "1612-01-01",
  "1613-01-01",
  "1614-01-01",
  "1615-01-01",
  "1616-01-01",
  "1617-01-01",
  "1618-01-01",
  "1619-01-01",
  "1620-01-01",
  "1621-01-01",
  "1622-01-01",
  "1623-01-01",
  "1624-01-01",
  "1625-01-01",
  "1626-01-01",
  "1627-01-01",
  "1628-01-01",
  "1629-01-01",
  "1630-01-01",
  "1631-01-01",
  "1632-01-01",
  "1633-01-01",
  "1634-01-01",
  "1635-01-01",
  "1636-01-01",
  "1637-01-01",
  "1638-01-01",
  "1639-01-01",
  "1640-01-01",
  "1641-01-01",
  "1642-01-01",
  "1643-01-01",
  "1644-01-01",
  "1645-01-01",
  "1646-01-01",
  "1647-01-01",
  "1648-01-01",
  "1649-01-01",
  "1650-01-01",
  "1651-01-01",
  "1652-01-01",
  "1653-01-01",
  "1654-01-01",
  "1655-01-01",
  "1656-01-01",
  "1657-01-01",
  "1658-01-01",
  "1659-01-01",
  "1660-01-01",
  "1661-01-01",
  "1662-01-01",
  "1663-01-01",
  "1664-01-01",
  "1665-01-01",
  "1666-01-01",
  "1667-01-01",
  "1668-01-01",
  "1669-01-01",
  "1670-01-01",
  "1671-01-01",
  "1672-01-01",
  "1673-01-01",
  "1674-01-01",
  "1675-01-01",
  "1676-01-01",
  "1677-01-01",
  "1678-01-01",
  "1679-01-01",
  "1680-01-01",
  "1681-01-01",
  "1682-01-01",
  "1683-01-01",
  "1684-01-01",
  "1685-01-01",
  "1686-01-01",
  "1687-01-01",
  "1688-01-01",
  "1689-01-01",
  "1690-01-01",
  "1691-01-01",
  "1692-01-01",
  "1693-01-01",
  "1694-01-01",
  "1695-01-01",
  "1696-01-01",
  "1697-01-01",
  "1698-01-01",
  "1699-01-01",
  "1700-01-01",
  "1701-01-01",
  "1702-01-01",
  "1703-01-01",
  "1704-01-01",
  "1705-01-01",
  "1706-01-01",
  "1707-01-01",
  "1708-01-01",
  "1709-01-01",
  "1710-01-01",
  "1711-01-01",
  "1712-01-01",
  "1713-01-01",
  "1714-01-01",
  "1715-01-01",
  "1716-01-01",
  "1717-01-01",
  "1718-01-01",
  "1719-01-01",
  "1720-01-01",
  "1721-01-01",
  "1722-01-01",
  "1723-01-01",
  "1724-01-01",
  "1725-01-01",
  "1726-01-01",
  "1727-01-01",
  "1728-01-01",
  "1729-01-01",
  "1730-01-01",
  "1731-01-01",
  "1732-01-01",
  "1733-01-01",
  "1734-01-01",
  "1735-01-01",
  "1736-01-01",
  "1737-01-01",
  "1738-01-01",
  "1739-01-01",
  "1740-01-01",
  "1741-01-01",
  "1742-01-01",
  "1743-01-01",
  "1744-01-01",
  "1745-01-01",
  "1746-01-01",
  "1747-01-01",
  "1748-01-01",
  "1749-01-01",
  "1750-01-01",
  "1751-01-01",
  "1752-01-01",
  "1753-01-01",
  "1754-01-01",
  "1755-01-01",
  "1756-01-01",
  "1757-01-01",
  "1758-01-01",
  "1759-01-01",
  "1760-01-01",
  "1761-01-01",
  "1762-01-01",
  "1763-01-01",
  "1764-01-01",
  "1765-01-01",
  "1766-01-01",
  "1767-01-01",
  "1768-01-01",
  "1769-01-01",
  "1770-01-01",
  "1771-01-01",
  "1772-01-01",
  "1773-01-01",
  "1774-01-01",
  "1775-01-01",
  "1776-01-01",
  "1777-01-01",
  "1778-01-01",
  "1779-01-01",
  "1780-01-01",
  "1781-01-01",
  "1782-01-01",
  "1783-01-01",
  "1784-01-01",
  "1785-01-01",
  "1786-01-01",
  "1787-01-01",
  "1788-01-01",
  "1789-01-01",
  "1790-01-01",
  "1791-01-01",
  "1792-01-01",
  "1793-01-01",
  "1794-01-01",
  "1795-01-01",
  "1796-01-01",
  "1797-01-01",
  "1798-01-01",
  "1799-01-01",
  "1800-01-01",
  "1801-01-01",
  "1802-01-01",
  "1803-01-01",
  "1804-01-01",
  "1805-01-01",
  "1806-01-01",
  "1807-01-01",
  "1808-01-01",
  "1809-01-01",
  "1810-01-01",
  "1811-01-01",
  "1812-01-01",
  "1813-01-01",
  "1814-01-01",
  "1815-01-01",
  "1816-01-01",
  "1817-01-01",
  "1818-01-01",
  "1819-01-01",
  "1820-01-01",
  "1821-01-01",
  "1822-01-01",
  "1823-01-01",
  "1824-01-01",
  "1825-01-01",
  "1826-01-01",
  "1827-01-01",
  "1828-01-01",
  "1829-01-01",
  "1830-01-01",
  "1831-01-01",
  "1832-01-01",
  "1833-01-01",
  "1834-01-01",
  "1835-01-01",
  "1836-01-01",
  "1837-01-01",
  "1838-01-01",
  "1839-01-01",
  "1840-01-01",
  "1841-01-01",
  "1842-01-01",
  "1843-01-01",
  "1844-01-01",
  "1845-01-01",
  "1846-01-01",
  "1847-01-01",
  "1848-01-01",
  "1849-01-01",
  "1850-01-01",
  "1851-01-01",
  "1852-01-01",
  "1853-01-01",
  "1854-01-01",
  "1855-01-01",
  "1856-01-01",
  "1857-01-01",
  "1858-01-01",
  "1859-01-01",
  "1860-01-01",
  "1861-01-01",
  "1862-01-01",
  "1863-01-01",
  "1864-01-01",
  "1865-01-01",
  "1866-01-01",
  "1867-01-01",
  "1868-01-01",
  "1869-01-01",
  "1870-01-01",
  "1871-01-01",
  "1872-01-01",
  "1873-01-01",
  "1874-01-01",
  "1875-01-01",
  "1876-01-01",
  "1877-01-01",
  "1878-01-01",
  "1879-01-01",
  "1880-01-01",
  "1881-01-01",
  "1882-01-01",
  "1883-01-01",
  "1884-01-01",
  "1885-01-01",
  "1886-01-01",
  "1887-01-01",
  "1888-01-01",
  "1889-01-01",
  "1890-01-01",
  "1891-01-01",
  "1892-01-01",
  "1893-01-01",
  "1894-01-01",
  "1895-01-01",
  "1896-01-01",
  "1897-01-01",
  "1898-01-01",
  "1899-01-01",
  "1900-01-01",
  "1901-01-01",
  "1902-01-01",
  "1903-01-01",
  "1904-01-01",
  "1905-01-01",
  "1906-01-01",
  "1907-01-01",
  "1908-01-01",
  "1909-01-01",
  "1910-01-01",
  "1911-01-01",
  "1912-01-01",
  "1913-01-01",
  "1914-01-01",
  "1915-01-01",
  "1916-01-01",
  "1917-01-01",
  "1918-01-01",
  "1919-01-01",
  "1920-01-01",
  "1921-01-01",
  "1922-01-01",
  "1923-01-01",
  "1924-01-01",
  "1925-01-01",
  "1926-01-01",
  "1927-01-01",
  "1928-01-01",
  "1929-01-01",
  "1930-01-01",
  "1931-01-01",
  "1932-01-01",
  "1933-01-01",
  "1934-01-01",
  "1935-01-01",
  "1936-01-01",
  "1937-01-01",
  "1938-01-01",
  "1939-01-01",
  "1940-01-01",
  "1941-01-01",
  "1942-01-01",
  "1943-01-01",
  "1944-01-01",
  "1945-01-01",
  "1946-01-01",
  "1947-01-01",
  "1948-01-01"]

/-- A streak state carrying `cexHistory`, about to receive its award for
2026-10-11. -/
def cexStreak : StreakData :=
  { enabled := true, lastListenDate := none, currentStreak := 0,
    history := cexHistory, difficulty := .normal,
    completionDate := none, completedToday := [] }

/-- With 366 distinct history entries and a fresh `today`, the award's
`slice(-365)` drops the first two entries by insertion order — in
particular the head of the prior history, whatever its date value. -/
theorem insertion_window_drops_head (today y x : String) (rest : List String)
    (d : StreakData) (hhist : d.history = x :: rest)
    (hguard : d.lastListenDate ≠ some today)
    (hnd : (x :: rest).Nodup) (htoday : today ∉ x :: rest)
    (hlen : (x :: rest).length = 366) :
    x ∈ d.history ∧ x ∉ (updateStreak today y d).history := by
  have hxmem : x ∈ d.history := by
    rw [hhist]
    exact List.mem_cons_self x rest
  refine ⟨hxmem, ?_⟩
  have hl : jsDedup (d.history ++ [today]) = d.history ++ [today] := by
    rw [hhist]
    exact jsDedup_append_not_mem hnd htoday
  have hhist2 : (updateStreak today y d).history =
      takeLast 365 (jsDedup (d.history ++ [today])) := by
    simp only [updateStreak, if_neg hguard]
  rw [hhist2, hl, hhist, takeLast]
  have hlen2 : ((x :: rest) ++ [today]).length = 367 := by
    rw [List.length_append, hlen]
    rfl
  rw [hlen2]
  rw [show (367 : Nat) - 365 = 2 from rfl]
  rw [List.cons_append, List.drop_succ_cons]
  intro hx
  have hx2 : x ∈ rest ++ [today] := (List.drop_sublist 1 (rest ++ [today])).subset hx
  rw [List.nodup_cons] at hnd
  rcases List.mem_append.mp hx2 with h | h
  · exact hnd.1 h
  · rw [List.mem_singleton] at h
    rw [h] at htoday
    exact htoday (List.mem_cons_self today rest)

set_option maxRecDepth 10000 in
set_option maxHeartbeats 1000000 in
/-- C5 counterexample: "9999-12-31" was inserted into the history (so it is
trivially among the 365 most recent distinct dates by value), yet after the
award for 2026-10-11 it is no longer in the history — `slice(-365)` keeps
the last 365 entries by insertion order, not by date value. -/
theorem history_window_counterexample :
    "9999-12-31" ∈ cexStreak.history ∧
    "9999-12-31" ∉ (updateStreak "2026-10-11" "2026-10-10" cexStreak).history := by
  have hmap : cexHistory.map yearOf = 9999 :: List.range' 1584 365 := by decide
  have hnodN : (9999 :: List.range' 1584 365).Nodup := by
    rw [List.nodup_cons]
    refine ⟨fun h => ?_, List.nodup_range' _ _ _ Nat.one_pos⟩
    rw [List.mem_range'] at h
    omega
  have hnd : cexHistory.Nodup := List.Nodup.of_map yearOf (hmap ▸ hnodN)
  have htoday : "2026-10-11" ∉ cexHistory := by
    intro h
    have hmem : yearOf "2026-10-11" ∈ cexHistory.map yearOf :=
      List.mem_map_of_mem yearOf h
    rw [hmap, show yearOf "2026-10-11" = 2026 from rfl] at hmem
    rcases List.mem_cons.mp hmem with h9 | hr
    · omega
    · rw [List.mem_range'] at hr
      omega
  have hlen : cexHistory.length = 366 := by
    have hc := congrArg List.length hmap
    rw [List.length_map, List.length_cons, List.length_range'] at hc
    omega
  exact insertion_window_drops_head "2026-10-11" "2026-10-10" "9999-12-31"
    cexHistory.tail cexStreak rfl (by decide) (by rwa [show
      "9999-12-31" :: cexHistory.tail = cexHistory from rfl]) (by rwa [show
      "9999-12-31" :: cexHistory.tail = cexHistory from rfl]) (by rwa [show
      "9999-12-31" :: cexHistory.tail = cexHistory from rfl])

/-! ## A JS Map as an insertion-ordered association list -/

section JsMap

variable {B : Type}

/-- One `Map.set` on a JS `Map` represented by its insertion-ordered entry
list: an existing key is updated in place, a new key is appended. -/
def jsMapSet (m : List (String × B)) (k : String) (v : B) : List (String × B) :=
  if m.any (fun kv => decide (kv.1 = k)) then
    m.map (fun kv => if kv.1 = k then (k, v) else kv)
  else m ++ [(k, v)]

/-- A sequence of `Map.set` calls, in order. -/
def jsMapSetAll (m : List (String × B)) (l : List (String × B)) : List (String × B) :=
  l.foldl (fun acc kv => jsMapSet acc kv.1 kv.2) m

/-- `new Map(entries)`: insert every entry into an empty map. -/
def jsMapOfList (l : List (String × B)) : List (String × B) := jsMapSetAll [] l

/-- `Map.get`: the value of the first entry carrying the key. -/
def jsMapGet : List (String × B) → String → Option B
  | [], _ => none
  | kv :: rest, k => if kv.1 = k then some kv.2 else jsMapGet rest k

theorem jsMapGet_replace (k x : String) (v : B) :
    ∀ m : List (String × B),
      jsMapGet (m.map (fun kv => if kv.1 = k then (k, v) else kv)) x =
        if x = k then
          (if m.any (fun kv => decide (kv.1 = k)) then some v else none)
        else jsMapGet m x := by
  intro m
  induction m with
  | nil => by_cases hxk : x = k <;> simp [jsMapGet, hxk]
  | cons e rest ih =>
    rw [List.map_cons]
    by_cases hek : e.1 = k
    · by_cases hxk : x = k
      · subst hxk
        simp [jsMapGet, hek, List.any_cons]
      · have hkx : ¬ k = x := fun h => hxk h.symm
        have hex : ¬ e.1 = x := fun h => hxk (hek.symm.trans h).symm
        simp [jsMapGet, hek, hxk, hkx, hex, ih]
    · by_cases hxe : e.1 = x
      · have hxk : ¬ x = k := fun h => hek (hxe.symm ▸ h)
        simp [jsMapGet, hek, hxe, hxk]
      · have hd : (decide (e.1 = k)) = false := by simp [hek]
        simp only [jsMapGet, List.any_cons, if_neg hek, if_neg hxe, ih, hd,
          Bool.false_or]

theorem jsMapGet_append_fresh (k x : String) (v : B) :
    ∀ m : List (String × B), (∀ kv ∈ m, kv.1 ≠ k) →
      jsMapGet (m ++ [(k, v)]) x = if x = k then some v else jsMapGet m x := by
  intro m
  induction m with
  | nil =>
    intro _
    by_cases hxk : x = k
    · simp [jsMapGet, hxk]
    · have hkx : ¬ k = x := fun h => hxk h.symm
      simp [jsMapGet, hxk, hkx]
  | cons e rest ih =>
    intro hfresh
    rw [List.cons_append, jsMapGet]
    by_cases hxe : e.1 = x
    · have hxk : ¬ x = k := fun h =>
        hfresh e (List.mem_cons_self e rest) (hxe.trans h)
      rw [if_pos hxe, if_neg hxk, jsMapGet, if_pos hxe]
    · rw [if_neg hxe, ih (fun kv hkv => hfresh kv (List.mem_cons_of_mem e hkv))]
      by_cases hxk : x = k
      · rw [if_pos hxk, if_pos hxk]
      · rw [if_neg hxk, if_neg hxk, jsMapGet, if_neg hxe]

theorem jsMapGet_set (m : List (String × B)) (k x : String) (v : B) :
    jsMapGet (jsMapSet m k v) x = if x = k then some v else jsMapGet m x := by
  unfold jsMapSet
  split
  · rename_i hany
    rw [jsMapGet_replace]
    by_cases hxk : x = k
    · rw [if_pos hxk, if_pos hxk, if_pos hany]
    · rw [if_neg hxk, if_neg hxk]
  · rename_i hany
    refine jsMapGet_append_fresh k x v m ?_
    intro kv hkv
    have hfalse : m.any (fun kv => decide (kv.1 = k)) = false :=
      Bool.eq_false_iff.mpr hany
    simpa using List.any_eq_false.mp hfalse kv hkv

theorem jsMapGet_setAll_no_key (x : String) :
    ∀ (l m : List (String × B)), (∀ kv ∈ l, kv.1 ≠ x) →
      jsMapGet (jsMapSetAll m l) x = jsMapGet m x := by
  intro l
  induction l with
  | nil => intro m _; rfl
  | cons e rest ih =>
    intro m hfresh
    rw [show jsMapSetAll m (e :: rest) = jsMapSetAll (jsMapSet m e.1 e.2) rest from rfl]
    rw [ih _ (fun kv hkv => hfresh kv (List.mem_cons_of_mem e hkv))]
    rw [jsMapGet_set, if_neg (fun h => hfresh e (List.mem_cons_self e rest) h.symm)]

theorem jsMapGet_setAll_key (x : String) :
    ∀ (l m : List (String × B)) (kv : String × B),
      (l.map Prod.fst).Nodup → kv ∈ l → kv.1 = x →
      jsMapGet (jsMapSetAll m l) x = some kv.2 := by
  intro l
  induction l with
  | nil => intro m kv _ hmem _; simp at hmem
  | cons e rest ih =>
    intro m kv hnd hmem hkey
    rw [List.map_cons, List.nodup_cons] at hnd
    rw [show jsMapSetAll m (e :: rest) = jsMapSetAll (jsMapSet m e.1 e.2) rest from rfl]
    by_cases hex : e.1 = x
    · have hkv : kv = e := by
        rcases List.mem_cons.mp hmem with h | h
        · exact h
        · exfalso
          apply hnd.1
          rw [hex, ← hkey]
          exact List.mem_map_of_mem Prod.fst h
      subst hkv
      have hfresh : ∀ kv2 ∈ rest, kv2.1 ≠ x := by
        intro kv2 hkv2 h2
        apply hnd.1
        rw [hex, ← h2]
        exact List.mem_map_of_mem Prod.fst hkv2
      rw [jsMapGet_setAll_no_key x rest _ hfresh, jsMapGet_set, if_pos hex.symm]
    · have hkv : kv ∈ rest := by
        rcases List.mem_cons.mp hmem with h | h
        · exact absurd (h ▸ hkey) hex
        · exact h
      exact ih _ kv hnd.2 hkv hkey

theorem jsMapGet_eq_of_mem (x : String) :
    ∀ (l : List (String × B)) (kv : String × B),
      (l.map Prod.fst).Nodup → kv ∈ l → kv.1 = x →
      jsMapGet l x = some kv.2 := by
  intro l
  induction l with
  | nil => intro kv _ hmem _; simp at hmem
  | cons e rest ih =>
    intro kv hnd hmem hkey
    rw [List.map_cons, List.nodup_cons] at hnd
    rw [jsMapGet]
    by_cases hex : e.1 = x
    · have hkv : kv = e := by
        rcases List.mem_cons.mp hmem with h | h
        · exact h
        · exfalso
          apply hnd.1
          rw [hex, ← hkey]
          exact List.mem_map_of_mem Prod.fst h
      subst hkv
      rw [if_pos hex]
    · have hkv : kv ∈ rest := by
        rcases List.mem_cons.mp hmem with h | h
        · exact absurd (h ▸ hkey) hex
        · exact h
      rw [if_neg hex]
      exact ih kv hnd.2 hkv hkey

theorem jsMapGet_eq_none (x : String) :
    ∀ l : List (String × B), (∀ kv ∈ l, kv.1 ≠ x) → jsMapGet l x = none := by
  intro l
  induction l with
  | nil => intro _; rfl
  | cons e rest ih =>
    intro hfresh
    rw [jsMapGet, if_neg (hfresh e (List.mem_cons_self e rest))]
    exact ih (fun kv hkv => hfresh kv (List.mem_cons_of_mem e hkv))

theorem jsMapGet_ofList_nodup (x : String) (l : List (String × B))
    (hnd : (l.map Prod.fst).Nodup) :
    jsMapGet (jsMapOfList l) x = jsMapGet l x := by
  by_cases hex : ∃ kv ∈ l, kv.1 = x
  · obtain ⟨kv, hmem, hkey⟩ := hex
    rw [jsMapOfList, jsMapGet_setAll_key x l [] kv hnd hmem hkey,
      jsMapGet_eq_of_mem x l kv hnd hmem hkey]
  · push_neg at hex
    rw [jsMapOfList, jsMapGet_setAll_no_key x l [] hex, jsMapGet_eq_none x l hex]
    rfl

end JsMap

/-! ## The Library Store: Podcast records -/

/-- The storage enum of the `Podcast` type. -/
inductive StorageKind
  | preloaded
  | indexeddb
deriving Repr, DecidableEq

/-- The `Podcast` record (types + `src/App.tsx`): the spec's Lesson.
JS numbers (seconds) are modelled by `ℚ`. -/
@[ext]
structure Podcast where
  id : String
  name : String
  url : Option String
  duration : ℚ
  progress : ℚ
  isListened : Bool
  storage : StorageKind
  collectionId : Option String
deriving Repr, DecidableEq

/-- `list.find(p => p.id === x)`: the first record with the given id. -/
def findById : List Podcast → String → Option Podcast
  | [], _ => none
  | p :: rest, x => if p.id = x then some p else findById rest x

theorem findById_append (x : String) :
    ∀ l1 l2 : List Podcast,
      findById (l1 ++ l2) x = (findById l1 x).or (findById l2 x) := by
  intro l1 l2
  induction l1 with
  | nil => rfl
  | cons p rest ih =>
    rw [List.cons_append, findById, findById]
    by_cases hp : p.id = x
    · rw [if_pos hp, if_pos hp]
      rfl
    · rw [if_neg hp, if_neg hp, ih]

theorem findById_eq_none (x : String) :
    ∀ l : List Podcast, findById l x = none ↔ ∀ p ∈ l, p.id ≠ x := by
  intro l
  induction l with
  | nil => simp [findById]
  | cons p rest ih =>
    rw [findById]
    by_cases hp : p.id = x
    · simp [hp]
    · rw [if_neg hp, ih]
      constructor
      · intro h q hq
        rcases List.mem_cons.mp hq with h1 | h1
        · exact h1 ▸ hp
        · exact h q h1
      · intro h q hq
        exact h q (List.mem_cons_of_mem p hq)

theorem findById_filter_fresh (x : String) (prev : List Podcast)
    (hfresh : ∀ q ∈ prev, q.id ≠ x) :
    ∀ news : List Podcast,
      findById (news.filter (fun p => decide (p.id ∉ prev.map Podcast.id))) x =
        findById news x := by
  have hx : x ∉ prev.map Podcast.id := by
    intro hmem
    obtain ⟨q, hq, hqid⟩ := List.mem_map.mp hmem
    exact hfresh q hq hqid
  intro news
  induction news with
  | nil => rfl
  | cons n rest ih =>
    by_cases hn : n.id = x
    · rw [List.filter_cons_of_pos (by simp [hn, hx]), findById, if_pos hn,
        findById, if_pos hn]
    · by_cases hkeep : n.id ∈ prev.map Podcast.id
      · rw [List.filter_cons_of_neg (by simp [hkeep]), ih, findById, if_neg hn]
      · rw [List.filter_cons_of_pos (by simp [hkeep]), findById, if_neg hn, ih,
          findById, if_neg hn]

/-- Looking a record up among the values of a well-keyed map is the same as
looking its key up in the map. -/
theorem findById_values :
    ∀ m : List (String × Podcast), (∀ kv ∈ m, kv.2.id = kv.1) →
      ∀ x, findById (m.map Prod.snd) x = jsMapGet m x := by
  intro m
  induction m with
  | nil => intro _ x; rfl
  | cons kv rest ih =>
    intro hwf x
    rw [List.map_cons, findById, jsMapGet]
    have hid : kv.2.id = kv.1 := hwf kv (List.mem_cons_self kv rest)
    by_cases h : kv.1 = x
    · rw [if_pos (hid.trans h), if_pos h]
    · rw [if_neg (fun hh => h (hid.symm.trans hh)), if_neg h]
      exact ih (fun e he => hwf e (List.mem_cons_of_mem kv he)) x

theorem jsMapSet_wf {m : List (String × Podcast)} {k : String} {v : Podcast}
    (hwf : ∀ kv ∈ m, kv.2.id = kv.1) (hv : v.id = k) :
    ∀ kv ∈ jsMapSet m k v, kv.2.id = kv.1 := by
  intro kv hkv
  unfold jsMapSet at hkv
  split at hkv
  · obtain ⟨e, he, hkve⟩ := List.mem_map.mp hkv
    by_cases hek : e.1 = k
    · rw [← hkve, if_pos hek]
      simpa using hv
    · rw [← hkve, if_neg hek]
      exact hwf e he
  · rcases List.mem_append.mp hkv with h | h
    · exact hwf kv h
    · rw [List.mem_singleton] at h
      subst h
      simpa using hv

theorem jsMapSetAll_wf :
    ∀ (l m : List (String × Podcast)),
      (∀ kv ∈ m, kv.2.id = kv.1) → (∀ kv ∈ l, kv.2.id = kv.1) →
      ∀ kv ∈ jsMapSetAll m l, kv.2.id = kv.1 := by
  intro l
  induction l with
  | nil => intro m hm _ kv hkv; exact hm kv hkv
  | cons e rest ih =>
    intro m hm hl kv hkv
    rw [show jsMapSetAll m (e :: rest) = jsMapSetAll (jsMapSet m e.1 e.2) rest from rfl] at hkv
    exact ih _ (jsMapSet_wf hm (hl e (List.mem_cons_self e rest)))
      (fun e2 he2 => hl e2 (List.mem_cons_of_mem e he2)) kv hkv

/-- `handleAssignToCollection` (`src/App.tsx` lines 160-170): build a map
of the existing lessons keyed by id, `Map.set` each incoming lesson with
the assigned collection id, and return the map values. -/
def handleAssignToCollection (podcastsToAssign : List Podcast)
    (collectionId : Option String) (prev : List Podcast) : List Podcast :=
  (jsMapSetAll (jsMapOfList (prev.map (fun p => (p.id, p))))
      (podcastsToAssign.map (fun p => (p.id, { p with collectionId := collectionId })))).map
    Prod.snd

/-- The dedupe in `loadPreloadedPodcasts` (`src/App.tsx` lines 120-126):
keep existing entries and append only incoming lessons with fresh ids. -/
def loadPreloadedPodcasts (newPodcasts : List Podcast) (prev : List Podcast) : List Podcast :=
  prev ++ newPodcasts.filter (fun p => decide (p.id ∉ prev.map Podcast.id))

/-! ## C6: dedupe-by-id when adding lessons -/

/-- C6 (amended): both add paths dedupe by id, but with different winners.
The preloaded-lessons path keeps the existing record and drops a colliding
incoming one (existing wins, lookup falls back to the incoming batch only
for fresh ids); the assign-to-collection path that file uploads go through
replaces a colliding existing record by the incoming one with the assigned
collection id (new wins); non-colliding lessons are appended on both
paths. -/
theorem addLessons_dedupe_amended (prev news batch : List Podcast)
    (cid : Option String) (x : String)
    (hprev : (prev.map Podcast.id).Nodup)
    (hbatch : (batch.map Podcast.id).Nodup) :
    (findById (loadPreloadedPodcasts news prev) x =
      (findById prev x).or (findById news x)) ∧
    (∀ b ∈ batch, b.id = x →
      findById (handleAssignToCollection batch cid prev) x =
        some { b with collectionId := cid }) ∧
    ((∀ b ∈ batch, b.id ≠ x) →
      findById (handleAssignToCollection batch cid prev) x = findById prev x) := by
  have hwfprev : ∀ kv ∈ prev.map (fun p => (p.id, p)), kv.2.id = kv.1 := by
    intro kv hkv
    obtain ⟨p, _, hkve⟩ := List.mem_map.mp hkv
    rw [← hkve]
  have hwfbatch : ∀ kv ∈ batch.map (fun p => (p.id, { p with collectionId := cid })),
      kv.2.id = kv.1 := by
    intro kv hkv
    obtain ⟨p, _, hkve⟩ := List.mem_map.mp hkv
    rw [← hkve]
  have hwfbase : ∀ kv ∈ jsMapOfList (prev.map (fun p => (p.id, p))), kv.2.id = kv.1 :=
    jsMapSetAll_wf _ [] (by simp) hwfprev
  have hwffinal : ∀ kv ∈ jsMapSetAll (jsMapOfList (prev.map (fun p => (p.id, p))))
      (batch.map (fun p => (p.id, { p with collectionId := cid }))), kv.2.id = kv.1 :=
    jsMapSetAll_wf _ _ hwfbase hwfbatch
  have hkeysprev : (prev.map (fun p => (p.id, p))).map Prod.fst = prev.map Podcast.id := by
    rw [List.map_map]
    rfl
  have hkeysbatch : (batch.map (fun p => (p.id, { p with collectionId := cid }))).map
      Prod.fst = batch.map Podcast.id := by
    rw [List.map_map]
    rfl
  refine ⟨?_, ?_, ?_⟩
  · rw [loadPreloadedPodcasts, findById_append]
    cases hfind : findById prev x with
    | some q => rfl
    | none =>
      rw [findById_filter_fresh x prev ((findById_eq_none x prev).mp hfind) news]
  · intro b hb hbid
    rw [handleAssignToCollection, findById_values _ hwffinal]
    refine jsMapGet_setAll_key x _ _ (b.id, { b with collectionId := cid }) ?_ ?_ hbid
    · rw [hkeysbatch]
      exact hbatch
    · exact List.mem_map_of_mem _ hb
  · intro hfresh
    rw [handleAssignToCollection, findById_values _ hwffinal]
    rw [jsMapGet_setAll_no_key x _ _ ?hfreshkeys]
    case hfreshkeys =>
      intro kv hkv
      obtain ⟨p, hp, hkve⟩ := List.mem_map.mp hkv
      rw [← hkve]
      exact hfresh p hp
    rw [jsMapGet_ofList_nodup x _ (hkeysprev ▸ hprev)]
    rw [← findById_values _ hwfprev x]
    have hsnd : (prev.map (fun p => (p.id, p))).map Prod.snd = prev := by
      rw [List.map_map]
      exact List.map_id prev
    rw [hsnd]

/-- The existing library record in the collision scenario: id "a" with
real listening progress. -/
def oldLesson : Podcast :=
  { id := "a", name := "Old", url := none, duration := 100, progress := 10,
    isListened := true, storage := .indexeddb, collectionId := none }

/-- A freshly uploaded record colliding on id "a", with zero progress. -/
def newLesson : Podcast :=
  { id := "a", name := "New", url := none, duration := 100, progress := 0,
    isListened := false, storage := .indexeddb, collectionId := none }

/-- C6 counterexample: assigning an uploaded batch containing a lesson
whose id collides with an existing record does not drop the new lesson —
it replaces the existing record (progress 10, listened, name "Old") with
the new one (progress 0, unlistened, name "New"). -/
theorem addLessons_existing_wins_counterexample :
    (handleAssignToCollection [newLesson] (some "c") [oldLesson]).map Podcast.progress =
      [0] ∧
    (handleAssignToCollection [newLesson] (some "c") [oldLesson]).map Podcast.name =
      ["New"] ∧
    oldLesson.progress = 10 := by
  refine ⟨by decide, by decide, by decide⟩

/-- Concrete instantiation of `addLessons_dedupe_amended`: the colliding
upload wins on the assign path, while the preloaded path keeps the
existing record. -/
theorem addLessons_dedupe_amended_witness :
    findById (handleAssignToCollection [newLesson] (some "c") [oldLesson]) "a" =
      some { newLesson with collectionId := some "c" } ∧
    findById (loadPreloadedPodcasts [newLesson] [oldLesson]) "a" = some oldLesson := by
  have h := addLessons_dedupe_amended [oldLesson] [newLesson] [newLesson]
    (some "c") "a" (by decide) (by decide)
  refine ⟨h.2.1 newLesson (List.mem_singleton_self newLesson) rfl, ?_⟩
  rw [h.1]
  decide

/-! ## C4 and C8: progress writes -/

/-- The per-lesson update inside `updatePodcastProgress` (`src/App.tsx`
lines 264-287): store the incoming progress; mark listened once the
position is within one second of a known duration, keeping an already
listened lesson listened. -/
def updateProgressOne (id : String) (progress : ℚ) (p : Podcast) : Podcast :=
  if p.id = id then
    { p with
        progress := progress,
        isListened := p.isListened ||
          (decide (0 < p.duration) && decide (p.duration - 1 ≤ progress)) }
  else p

/-- `updatePodcastProgress` (`src/App.tsx` lines 264-287), the library-store
effect of every progress write: map the per-lesson update over the list.
The raw value is stored without clamping. -/
def updatePodcastProgress (id : String) (progress : ℚ)
    (podcasts : List Podcast) : List Podcast :=
  podcasts.map (updateProgressOne id progress)

/-- C4: for a lesson with positive duration, a progress update stores the
new position and sets `isListened` (the spec's `isCompleted`) to true
exactly when the position is within one second of the duration; a lesson
already listened stays listened under any later update, however small its
position. -/
theorem updateProgress_tolerance (id : String) (q : ℚ) (lib : List Podcast)
    (p : Podcast) (hp : p ∈ lib) (hid : p.id = id) (hdur : 0 < p.duration) :
    updateProgressOne id q p ∈ updatePodcastProgress id q lib ∧
    (updateProgressOne id q p).isListened =
      (p.isListened || decide (p.duration - 1 ≤ q)) ∧
    (p.isListened = false →
      ((updateProgressOne id q p).isListened = true ↔ p.duration - 1 ≤ q)) ∧
    (p.isListened = true → (updateProgressOne id q p).isListened = true) ∧
    (updateProgressOne id q p).progress = q := by
  have h0 : decide (0 < p.duration) = true := decide_eq_true hdur
  have hmain : (updateProgressOne id q p).isListened =
      (p.isListened || decide (p.duration - 1 ≤ q)) := by
    rw [updateProgressOne, if_pos hid]
    simp [h0]
  refine ⟨List.mem_map_of_mem _ hp, hmain, ?_, ?_, ?_⟩
  · intro hfalse
    rw [hmain, hfalse, Bool.false_or]
    simp
  · intro htrue
    rw [hmain, htrue, Bool.true_or]
  · rw [updateProgressOne, if_pos hid]

/-- A fresh unlistened lesson with duration 100 for the tolerance checks. -/
def freshLesson : Podcast :=
  { id := "t", name := "T", url := none, duration := 100, progress := 0,
    isListened := false, storage := .preloaded, collectionId := none }

/-- Concrete instantiation of `updateProgress_tolerance` at duration 100:
progress 98.5 leaves the lesson unlistened, 99 marks it listened, and a
later update back to 50 keeps a listened lesson listened. -/
theorem updateProgress_tolerance_witness :
    (updateProgressOne "t" 99 freshLesson).isListened = true ∧
    (updateProgressOne "t" (197 / 2) freshLesson).isListened = false ∧
    (updateProgressOne "t" 50 { freshLesson with isListened := true }).isListened =
      true := by
  have h1 := updateProgress_tolerance "t" 99 [freshLesson] freshLesson
    (List.mem_singleton_self _) rfl (by norm_num [freshLesson])
  have h2 := updateProgress_tolerance "t" (197 / 2) [freshLesson] freshLesson
    (List.mem_singleton_self _) rfl (by norm_num [freshLesson])
  have h3 := updateProgress_tolerance "t" 50
    [{ freshLesson with isListened := true }] { freshLesson with isListened := true }
    (List.mem_singleton_self _) rfl (by norm_num [freshLesson])
  refine ⟨(h1.2.2.1 rfl).mpr (by norm_num [freshLesson]), ?_, h3.2.2.2.1 rfl⟩
  rw [h2.2.1]
  norm_num [freshLesson]

/-- `handleSeek`'s saved position (`src/unnamed/part_008` lines 178-187):
the click offset relative to the progress bar, scaled to the duration, and
passed to `onProgressSave` as is. -/
def handleSeekTime (clientX rectLeft rectWidth duration : ℚ) : ℚ :=
  ((clientX - rectLeft) / rectWidth) * duration

/-- C8 (code behaviour at the failing input): progress writes are not
clamped to `[0, durationSeconds]` anywhere on the write path — a seek
click 5px left of the progress bar produces position -5, and
`updatePodcastProgress` stores that negative value verbatim. -/
theorem progress_write_not_clamped :
    handleSeekTime 5 10 100 100 = -5 ∧
    (updatePodcastProgress "a" (-5)
        [{ id := "a", name := "A", url := none, duration := 100, progress := 10,
           isListened := false, storage := .indexeddb,
           collectionId := none }]).map Podcast.progress = [-5] ∧
    ¬ (0 : ℚ) ≤ -5 := by
  refine ⟨by norm_num [handleSeekTime], ?_, by norm_num⟩
  simp [updatePodcastProgress, updateProgressOne]

/-! ## C9: the debounced persistence at teardown -/

/-- Events seen by the player's debounced persistence logic
(`src/unnamed/part_008`): a media `timeupdate` carrying the playhead, the
500 ms debounce timer firing, and component teardown (lesson switch or
unmount — the `Player` is keyed by lesson id, so both destroy the
component and null `audioRef`). -/
inductive PlayerEvent
  | timeUpdate (t : ℚ)
  | fire
  | teardown

/-- The observable state of the debounce machinery: the audio element's
current time as reachable through `audioRef` (`none` after teardown),
whether a debounce timer is pending, every value passed to
`onProgressSave` so far, and the live UI position. -/
structure PlayerState where
  refTime : Option ℚ
  timerPending : Bool
  saved : List ℚ
  live : ℚ
deriving Repr, DecidableEq

/-- Component state at mount. -/
def initialPlayerState : PlayerState :=
  { refTime := some 0, timerPending := false, saved := [], live := 0 }

/-- One event step, from `src/unnamed/part_008` lines 165-176 and the
component's effects: `handleTimeUpdate` publishes the live position, clears
any pending timer and schedules a new one; a pending timer firing calls
`onProgressSave` with `audioRef.current?.currentTime || 0`; teardown nulls
the ref and clears nothing — the component has no cleanup for
`progressUpdateDebounceRef`, so a pending timer stays pending. -/
def playerStep (s : PlayerState) : PlayerEvent → PlayerState
  | .timeUpdate t => { s with refTime := some t, live := t, timerPending := true }
  | .fire =>
      if s.timerPending then
        { s with timerPending := false, saved := s.saved ++ [s.refTime.getD 0] }
      else s
  | .teardown => { s with refTime := none }

/-- Run a trace of events from the mount state. -/
def playerRun (events : List PlayerEvent) : PlayerState :=
  events.foldl playerStep initialPlayerState

/-- C9 (code behaviour at the failing input): after a `timeupdate` at
position 42 followed by teardown before the 500 ms debounce fires, the
only value ever persisted is 0 — the pending timer survives teardown and
reads the nulled audio ref (`audioRef.current?.currentTime || 0`), so the
last observed position 42 is never flushed. -/
theorem debounce_teardown_loses_position :
    (playerRun [.timeUpdate 42, .teardown, .fire]).saved = [0] ∧
    (playerRun [.timeUpdate 42, .teardown]).live = 42 ∧
    (42 : ℚ) ∉ (playerRun [.timeUpdate 42, .teardown, .fire]).saved := by
  refine ⟨rfl, rfl, ?_⟩
  intro hmem
  rw [show (playerRun [.timeUpdate 42, .teardown, .fire]).saved = [0] from rfl] at hmem
  rw [List.mem_singleton] at hmem
  norm_num at hmem

/-! ## C7: import merge -/

/-- JS `value || null` on a nullable string: null/undefined and the falsy
empty string all become null. -/
def jsOrNull (o : Option String) : Option String :=
  match o with
  | some s => if s = "" then none else some s
  | none => none

theorem jsOrNull_eq {o : Option String} (h : o ≠ some "") : jsOrNull o = o := by
  cases o with
  | none => rfl
  | some s =>
    have hs : ¬ s = "" := fun hs => h (hs ▸ rfl)
    simp [jsOrNull, hs]

/-- An imported lesson record, modelled by the fields the merge reads
(`src/App.tsx` lines 547-563), with `Option` for possibly missing
subfields. -/
structure ImportedPodcast where
  id : String
  progress : Option ℚ
  isListened : Option Bool
  collectionId : Option String
deriving Repr, DecidableEq

/-- The per-lesson import merge (`src/App.tsx` lines 551-562): a live
lesson with a matching imported record receives `progress || 0`,
`isListened || false` and `collectionId || null` from it; an unmatched
lesson is returned unchanged. -/
def mergeOne (importedPodcastsMap : List (String × ImportedPodcast))
    (c : Podcast) : Podcast :=
  match jsMapGet importedPodcastsMap c.id with
  | some ip =>
      { c with
          progress := ip.progress.getD 0,
          isListened := ip.isListened.getD false,
          collectionId := jsOrNull ip.collectionId }
  | none => c

/-- The lesson part of `handleImportData` (`src/App.tsx` lines 528-533 and
547-563), reached when the imported document has a valid lessons array:
map the merge over the live library, never adding imported-only lessons. -/
def mergeImportedPodcasts (imp : List ImportedPodcast)
    (current : List Podcast) : List Podcast :=
  current.map (mergeOne (jsMapOfList (imp.map (fun p => (p.id, p)))))

/-- C7: importing a document with a valid lessons array copies exactly
`progressSeconds`, `isCompleted` and `collectionId` (missing subfields
defaulting to 0/false/null) onto each live lesson whose id appears in the
document, leaves every other field and every unmatched live lesson
unchanged, and introduces no imported-only lesson (the id list of the
library is untouched). -/
theorem handleImportData_merge (imp : List ImportedPodcast) (cur : List Podcast)
    (hnd : (imp.map ImportedPodcast.id).Nodup) :
    ((mergeImportedPodcasts imp cur).map Podcast.id = cur.map Podcast.id) ∧
    (∀ c ∈ cur, ∀ ip ∈ imp, ip.id = c.id → ip.collectionId ≠ some "" →
      { c with
          progress := ip.progress.getD 0,
          isListened := ip.isListened.getD false,
          collectionId := ip.collectionId } ∈ mergeImportedPodcasts imp cur) ∧
    (∀ c ∈ cur, (∀ ip ∈ imp, ip.id ≠ c.id) → c ∈ mergeImportedPodcasts imp cur) := by
  have hkeys : (imp.map (fun p => (p.id, p))).map Prod.fst =
      imp.map ImportedPodcast.id := by
    rw [List.map_map]
    rfl
  refine ⟨?_, ?_, ?_⟩
  · rw [mergeImportedPodcasts, List.map_map]
    apply List.map_congr_left
    intro c _
    cases hget : jsMapGet (jsMapOfList (imp.map (fun p => (p.id, p)))) c.id <;>
      simp [Function.comp, mergeOne, hget]
  · intro c hc ip hip hid hne
    have hget : jsMapGet (jsMapOfList (imp.map (fun p => (p.id, p)))) c.id = some ip :=
      jsMapGet_setAll_key c.id _ [] (ip.id, ip) (hkeys ▸ hnd)
        (List.mem_map_of_mem _ hip) hid
    have hfc : mergeOne (jsMapOfList (imp.map (fun p => (p.id, p)))) c =
        { c with
            progress := ip.progress.getD 0,
            isListened := ip.isListened.getD false,
            collectionId := ip.collectionId } := by
      simp [mergeOne, hget, jsOrNull_eq hne]
    rw [mergeImportedPodcasts, ← hfc]
    exact List.mem_map_of_mem _ hc
  · intro c hc hfresh
    have hget : jsMapGet (jsMapOfList (imp.map (fun p => (p.id, p)))) c.id = none := by
      rw [jsMapOfList, jsMapGet_setAll_no_key]
      · rfl
      · intro kv hkv
        obtain ⟨p, hp, hkve⟩ := List.mem_map.mp hkv
        rw [← hkve]
        exact hfresh p hp
    have hfc : mergeOne (jsMapOfList (imp.map (fun p => (p.id, p)))) c = c := by
      simp [mergeOne, hget]
    rw [mergeImportedPodcasts, ← hfc]
    exact List.mem_map_of_mem _ hc

/-- A live lesson with id "a" and progress 10, not yet completed. -/
def liveA : Podcast :=
  { id := "a", name := "A", url := none, duration := 100, progress := 10,
    isListened := false, storage := .indexeddb, collectionId := none }

/-- A live lesson with id "b", matched by nothing in the import. -/
def liveB : Podcast :=
  { id := "b", name := "B", url := none, duration := 50, progress := 7,
    isListened := false, storage := .indexeddb, collectionId := some "k" }

/-- An imported record for id "a" carrying progress 40 and completion. -/
def impA : ImportedPodcast :=
  { id := "a", progress := some 40, isListened := some true, collectionId := none }

/-- An imported record whose id "c" matches no live lesson. -/
def impC : ImportedPodcast :=
  { id := "c", progress := some 3, isListened := some true, collectionId := none }

/-- Concrete instantiation of `handleImportData_merge`: live lesson "a"
receives progress 40 and completion from the import, live lesson "b" is
untouched, and the imported-only lesson "c" does not enter the library. -/
theorem handleImportData_merge_witness :
    { liveA with progress := 40, isListened := true, collectionId := none } ∈
      mergeImportedPodcasts [impA, impC] [liveA, liveB] ∧
    liveB ∈ mergeImportedPodcasts [impA, impC] [liveA, liveB] ∧
    (mergeImportedPodcasts [impA, impC] [liveA, liveB]).map Podcast.id =
      ["a", "b"] := by
  have h := handleImportData_merge [impA, impC] [liveA, liveB] (by decide)
  refine ⟨?_, ?_, ?_⟩
  · have hm := h.2.1 liveA (List.mem_cons_self _ _) impA (List.mem_cons_self _ _)
      rfl (by decide)
    simpa using hm
  · exact h.2.2 liveB (List.mem_cons_of_mem _ (List.mem_cons_self _ _)) (by decide)
  · rw [h.1]
    decide

end Japanese
